import Mathlib

/-!
Verification of the NESDev MediaWiki helper CLI (`tool/nesdev.py` and
`tool/nesdev_pages.py`).

The development shallowly embeds the pure core of the two scripts:

* `cache_key` — SHA-1 of the canonical (sorted) JSON serialization of the
  request parameters (`nesdev.py:48-50`, `nesdev_pages.py:50-52`), modelled
  with the hash function as an explicit parameter and the exact byte-level
  serialization produced by CPython's `json.dumps(sorted(params.items()),
  separators=(",", ":"))` (which escapes with `ensure_ascii=True`).
* `cached_request` — the read-through/write-through disk cache
  (`nesdev.py:69-95`, `nesdev_pages.py:71-95`), with the cache as explicit
  state and the network as a function from parameters to an outcome.
* `iter_pages` — the `generator=allpages` pagination walker
  (`nesdev_pages.py:98-137`), with a fuel parameter standing for the
  unbounded `while` loop and an instrumentation trace recording every
  batch request the walker issues.
* `format_metadata_wikitext` / document assembly (`nesdev.py:148-156,
  196-198`), `fetch_wikitext` (`nesdev.py:159-174`), `save_wikitext_document`
  (`nesdev.py:177-203`), `command_grab` (`nesdev.py:211-229`) and
  `clamp_batch_size` (`nesdev_pages.py:378-380`).

Python `dict`s appear as association lists in insertion order, Python `int`
as `Int`, JSON bodies as an inductive `Json` type, and I/O effects
(network calls, cache writes, file writes) as explicit counters or traces.
-/

namespace Nesdev

/-! ## Python string ordering

`sorted(params.items())` compares tuples of `str` lexicographically, and
`str` values by Unicode code point.  We mirror that on `List Char`. -/

/-- Code-point lexicographic `≤` on character lists: Python's `str` order. -/
def pyCharsLe : List Char → List Char → Bool
  | [], _ => true
  | _ :: _, [] => false
  | a :: as, b :: bs =>
    if a.toNat < b.toNat then true
    else if b.toNat < a.toNat then false
    else pyCharsLe as bs

/-- Python's tuple comparison on `(key, value)` pairs of strings, as used by
`sorted(params.items())`. -/
def pairLeB (x y : String × String) : Bool :=
  if x.1.data = y.1.data then pyCharsLe x.2.data y.2.data
  else pyCharsLe x.1.data y.1.data

theorem char_toNat_inj {c d : Char} (h : c.toNat = d.toNat) : c = d :=
  Char.ext (UInt32.ext h)

theorem pyCharsLe_total (as bs : List Char) :
    (pyCharsLe as bs || pyCharsLe bs as) = true := by
  induction as generalizing bs with
  | nil => simp [pyCharsLe]
  | cons a as ih =>
    cases bs with
    | nil => simp [pyCharsLe]
    | cons b bs =>
      by_cases h1 : a.toNat < b.toNat
      · simp [pyCharsLe, h1]
      · by_cases h2 : b.toNat < a.toNat
        · simp [pyCharsLe, h1, h2]
        · simp [pyCharsLe, h1, h2, ih bs]

theorem pyCharsLe_trans {as bs cs : List Char}
    (h1 : pyCharsLe as bs = true) (h2 : pyCharsLe bs cs = true) :
    pyCharsLe as cs = true := by
  induction as generalizing bs cs with
  | nil => simp [pyCharsLe]
  | cons a as ih =>
    cases bs with
    | nil => simp [pyCharsLe] at h1
    | cons b bs =>
      cases cs with
      | nil => simp [pyCharsLe] at h2
      | cons c cs =>
        simp only [pyCharsLe] at h1 h2 ⊢
        rcases Nat.lt_trichotomy a.toNat b.toNat with hab | hab | hab <;>
          rcases Nat.lt_trichotomy b.toNat c.toNat with hbc | hbc | hbc
        · rw [if_pos (by omega)]
        · rw [if_pos (by omega)]
        · rw [if_neg (by omega), if_pos (by omega)] at h2
          simp at h2
        · rw [if_pos (by omega)]
        · rw [if_neg (by omega), if_neg (by omega)] at h1 h2 ⊢
          exact ih h1 h2
        · rw [if_neg (by omega), if_pos (by omega)] at h2
          simp at h2
        · rw [if_neg (by omega), if_pos (by omega)] at h1
          simp at h1
        · rw [if_neg (by omega), if_pos (by omega)] at h1
          simp at h1
        · rw [if_neg (by omega), if_pos (by omega)] at h1
          simp at h1

theorem pyCharsLe_antisymm {as bs : List Char}
    (h1 : pyCharsLe as bs = true) (h2 : pyCharsLe bs as = true) : as = bs := by
  induction as generalizing bs with
  | nil =>
    cases bs with
    | nil => rfl
    | cons b bs => simp [pyCharsLe] at h2
  | cons a as ih =>
    cases bs with
    | nil => simp [pyCharsLe] at h1
    | cons b bs =>
      simp only [pyCharsLe] at h1 h2
      rcases Nat.lt_trichotomy a.toNat b.toNat with hab | hab | hab
      · rw [if_neg (by omega), if_pos (by omega)] at h2
        simp at h2
      · rw [if_neg (by omega), if_neg (by omega)] at h1 h2
        rw [ih h1 h2, char_toNat_inj hab]
      · rw [if_neg (by omega), if_pos (by omega)] at h1
        simp at h1

theorem pairLeB_total (x y : String × String) :
    (pairLeB x y || pairLeB y x) = true := by
  unfold pairLeB
  by_cases h : x.1.data = y.1.data
  · rw [if_pos h, if_pos h.symm]
    exact pyCharsLe_total _ _
  · rw [if_neg h, if_neg (fun hh => h hh.symm)]
    exact pyCharsLe_total _ _

theorem pairLeB_trans (x y z : String × String)
    (h1 : pairLeB x y = true) (h2 : pairLeB y z = true) : pairLeB x z = true := by
  unfold pairLeB at h1 h2 ⊢
  by_cases hxy : x.1.data = y.1.data <;> by_cases hyz : y.1.data = z.1.data
  · rw [if_pos hxy] at h1
    rw [if_pos hyz] at h2
    rw [if_pos (hxy.trans hyz)]
    exact pyCharsLe_trans h1 h2
  · rw [if_pos hxy] at h1
    rw [if_neg hyz] at h2
    rw [if_neg (fun hh => hyz (hxy.symm.trans hh)), hxy]
    exact h2
  · rw [if_neg hxy] at h1
    rw [if_pos hyz] at h2
    rw [if_neg (fun hh => hxy (hh.trans hyz.symm)), ← hyz]
    exact h1
  · rw [if_neg hxy] at h1
    rw [if_neg hyz] at h2
    by_cases hxz : x.1.data = z.1.data
    · exact absurd (pyCharsLe_antisymm (hxz ▸ h2 : pyCharsLe y.1.data x.1.data = true) h1).symm hxy
    · rw [if_neg hxz]
      exact pyCharsLe_trans h1 h2

theorem pairLeB_antisymm {x y : String × String}
    (h1 : pairLeB x y = true) (h2 : pairLeB y x = true) : x = y := by
  unfold pairLeB at h1 h2
  by_cases hxy : x.1.data = y.1.data
  · rw [if_pos hxy] at h1
    rw [if_pos hxy.symm] at h2
    have hk : x.1 = y.1 := String.ext hxy
    have hv : x.2 = y.2 := String.ext (pyCharsLe_antisymm h1 h2)
    exact Prod.ext hk hv
  · rw [if_neg hxy] at h1
    rw [if_neg (fun hh => hxy hh.symm)] at h2
    exact absurd (pyCharsLe_antisymm h1 h2) hxy

/-! ## Canonical serialization behind `cache_key`

`cache_key(params)` (identical in `nesdev.py:48-50` and
`nesdev_pages.py:50-52`) computes
`json.dumps(sorted(params.items()), separators=(",", ":"))` and hashes it
with SHA-1.  We model the serialization byte-for-byte (CPython's default
`ensure_ascii=True` string escaping) and keep the hash abstract, as a
function parameter: equal inputs give equal digests for any hash, and
distinctness of descriptors is established on the hash *input*. -/

/-- Lowercase hexadecimal digit, for `d < 16`. -/
def hexDigit (d : Nat) : Char :=
  if d < 10 then Char.ofNat (48 + d) else Char.ofNat (87 + d)

/-- Four lowercase hex digits of `n < 0x10000`, most significant first. -/
def hex4enc (n : Nat) : List Char :=
  [hexDigit (n / 4096 % 16), hexDigit (n / 256 % 16),
   hexDigit (n / 16 % 16), hexDigit (n % 16)]

/-- A `\uXXXX` escape. -/
def uEscape (n : Nat) : List Char := '\\' :: 'u' :: hex4enc n

/-- CPython's `json` string escaping of one character with
`ensure_ascii=True`: backslash, double quote, the named control escapes,
`\uXXXX` for other characters outside printable ASCII (with a surrogate
pair above `0xFFFF`), and the character itself otherwise. -/
def escChar (c : Char) : List Char :=
  let n := c.toNat
  if c = '\\' then ['\\', '\\']
  else if c = '"' then ['\\', '"']
  else if n = 8 then ['\\', 'b']
  else if n = 9 then ['\\', 't']
  else if n = 10 then ['\\', 'n']
  else if n = 12 then ['\\', 'f']
  else if n = 13 then ['\\', 'r']
  else if n < 0x20 ∨ 0x7e < n then
    if n < 0x10000 then uEscape n
    else uEscape (0xd800 + (n - 0x10000) / 0x400) ++
         uEscape (0xdc00 + (n - 0x10000) % 0x400)
  else [c]

/-- Escaped body of a JSON string literal. -/
def escBody (s : List Char) : List Char := (s.map escChar).flatten

/-- The JSON string literal for `s`, quotes included. -/
def encodeJsonString (s : String) : List Char :=
  '"' :: (escBody s.data ++ ['"'])

/-- `json.dumps` of one `(key, value)` tuple: a two-element array. -/
def serializePair (kv : String × String) : List Char :=
  '[' :: (encodeJsonString kv.1 ++ ',' :: (encodeJsonString kv.2 ++ [']']))

/-- `",".join`, as produced by `json.dumps` with item separator `","`. -/
def joinComma : List (List Char) → List Char
  | [] => []
  | [x] => x
  | x :: y :: ys => x ++ ',' :: joinComma (y :: ys)

/-- `json.dumps(l, separators=(",", ":"))` for a list of string pairs. -/
def serializeItems (l : List (String × String)) : List Char :=
  '[' :: (joinComma (l.map serializePair) ++ [']'])

/-- `pairLeB` as a decidable relation, for the sorting machinery. -/
def pairLe (x y : String × String) : Prop := pairLeB x y = true

instance : DecidableRel pairLe := fun x y =>
  inferInstanceAs (Decidable (pairLeB x y = true))

instance : IsTotal (String × String) pairLe :=
  ⟨fun a b => Bool.or_eq_true_iff.mp (pairLeB_total a b)⟩

instance : IsTrans (String × String) pairLe :=
  ⟨fun a b c => pairLeB_trans a b c⟩

instance : IsAntisymm (String × String) pairLe :=
  ⟨fun _ _ h1 h2 => pairLeB_antisymm h1 h2⟩

/-- `sorted(params.items())`: the request parameters in Python's sorted
order (tuples compared lexicographically, strings by code point).  Python's
`sorted` and `insertionSort` compute the same list: for a total
antisymmetric order the sorted permutation is unique. -/
def sorted_params (params : List (String × String)) : List (String × String) :=
  List.insertionSort pairLe params

/-- The exact character sequence fed to SHA-1 by `cache_key`. -/
def cacheKeyInput (params : List (String × String)) : List Char :=
  serializeItems (sorted_params params)

/-- `cache_key(params)` (`nesdev.py:48-50`, `nesdev_pages.py:50-52`):
hex digest of the canonical serialization plus the `".json"` suffix.
`sha1hex` abstracts `hashlib.sha1(...).hexdigest()`. -/
def cache_key (sha1hex : List Char → String) (params : List (String × String)) : String :=
  sha1hex (cacheKeyInput params) ++ ".json"

/-! ### A decoder for the serialization

The decoder below is proof machinery only: it exhibits the canonical
serialization as uniquely decodable, which gives injectivity.  It returns
code points as naturals to avoid rebuilding `Char` values. -/

/-- Value of a lowercase hexadecimal digit character. -/
def hexVal (c : Char) : Option Nat :=
  if 48 ≤ c.toNat ∧ c.toNat ≤ 57 then some (c.toNat - 48)
  else if 97 ≤ c.toNat ∧ c.toNat ≤ 102 then some (c.toNat - 87)
  else none

/-- Value of four hex digit characters, most significant first. -/
def hex4 (a b c d : Char) : Option Nat :=
  match hexVal a, hexVal b, hexVal c, hexVal d with
  | some x, some y, some z, some w => some (((x * 16 + y) * 16 + z) * 16 + w)
  | _, _, _, _ => none

/-- Inverse of the named escapes the encoder emits. -/
def unescChar (e : Char) : Option Nat :=
  if e = '"' then some 34
  else if e = '\\' then some 92
  else if e = 'b' then some 8
  else if e = 'f' then some 12
  else if e = 'n' then some 10
  else if e = 'r' then some 13
  else if e = 't' then some 9
  else none

/-- Decode one encoded character (never the closing quote of a string):
the decoded code point and the remaining input. -/
def decodeUnit (l : List Char) : Option (Nat × List Char) :=
  match l with
  | [] => none
  | c :: rest =>
    if c = '"' then none
    else if c = '\\' then
      match rest with
      | [] => none
      | e :: rest2 =>
        if e = 'u' then
          match rest2 with
          | h1 :: h2 :: h3 :: h4 :: rest3 =>
            (hex4 h1 h2 h3 h4).bind (fun n =>
              if 0xd800 ≤ n ∧ n < 0xdc00 then
                match rest3 with
                | b1 :: u2 :: g1 :: g2 :: g3 :: g4 :: rest4 =>
                  if b1 = '\\' ∧ u2 = 'u' then
                    (hex4 g1 g2 g3 g4).bind (fun m =>
                      if 0xdc00 ≤ m ∧ m < 0xe000 then
                        some (0x10000 + (n - 0xd800) * 0x400 + (m - 0xdc00), rest4)
                      else none)
                  else none
                | _ => none
              else some (n, rest3))
          | _ => none
        else (unescChar e).bind (fun n => some (n, rest2))
    else some (c.toNat, rest)

/-- Decode an escaped string body up to its closing quote.  The fuel
bounds the number of decoded characters; it is proof machinery only. -/
def decodeBodyF : Nat → List Char → Option (List Nat × List Char)
  | 0, _ => none
  | _ + 1, [] => none
  | fuel + 1, c :: rest =>
    if c = '"' then some ([], rest)
    else
      (decodeUnit (c :: rest)).bind (fun nt =>
        (decodeBodyF fuel nt.2).bind (fun nsr => some (nt.1 :: nsr.1, nsr.2)))

theorem hexVal_hexDigit : ∀ d, d < 16 → hexVal (hexDigit d) = some d := by decide

theorem hex4_hex4enc {n : Nat} (h : n < 65536) :
    hex4 (hexDigit (n / 4096 % 16)) (hexDigit (n / 256 % 16))
      (hexDigit (n / 16 % 16)) (hexDigit (n % 16)) = some n := by
  have h1 := hexVal_hexDigit (n / 4096 % 16) (by omega)
  have h2 := hexVal_hexDigit (n / 256 % 16) (by omega)
  have h3 := hexVal_hexDigit (n / 16 % 16) (by omega)
  have h4 := hexVal_hexDigit (n % 16) (by omega)
  simp only [hex4, h1, h2, h3, h4, Option.some.injEq]
  omega

theorem char_valid_nat (c : Char) :
    c.toNat < 0xd800 ∨ (0xdfff < c.toNat ∧ c.toNat < 0x110000) := c.valid

/-- The encoding of any character is nonempty and never starts with the
closing quote. -/
theorem escChar_shape (c : Char) : ∃ d t, escChar c = d :: t ∧ d ≠ '"' := by
  unfold escChar
  by_cases hc1 : c = '\\'
  · exact ⟨_, _, by rw [if_pos hc1], by decide⟩
  by_cases hc2 : c = '"'
  · exact ⟨_, _, by rw [if_neg hc1, if_pos hc2], by decide⟩
  rw [if_neg hc1, if_neg hc2]
  by_cases hc3 : c.toNat = 8
  · exact ⟨_, _, by rw [if_pos hc3], by decide⟩
  by_cases hc4 : c.toNat = 9
  · exact ⟨_, _, by rw [if_neg hc3, if_pos hc4], by decide⟩
  by_cases hc5 : c.toNat = 10
  · exact ⟨_, _, by rw [if_neg hc3, if_neg hc4, if_pos hc5], by decide⟩
  by_cases hc6 : c.toNat = 12
  · exact ⟨_, _, by rw [if_neg hc3, if_neg hc4, if_neg hc5, if_pos hc6], by decide⟩
  by_cases hc7 : c.toNat = 13
  · exact ⟨_, _, by rw [if_neg hc3, if_neg hc4, if_neg hc5, if_neg hc6, if_pos hc7],
      by decide⟩
  rw [if_neg hc3, if_neg hc4, if_neg hc5, if_neg hc6, if_neg hc7]
  by_cases hc8 : c.toNat < 0x20 ∨ 0x7e < c.toNat
  · rw [if_pos hc8]
    by_cases hc9 : c.toNat < 0x10000
    · exact ⟨_, _, by rw [if_pos hc9, uEscape], by decide⟩
    · exact ⟨_, _, by rw [if_neg hc9, uEscape, List.cons_append], by decide⟩
  · exact ⟨c, [], by rw [if_neg hc8], fun hh => hc2 hh⟩

theorem decodeUnit_u {h1 h2 h3 h4 : Char} {rest : List Char} {n : Nat}
    (hhex : hex4 h1 h2 h3 h4 = some n) (hns : ¬(0xd800 ≤ n ∧ n < 0xdc00)) :
    decodeUnit ('\\' :: 'u' :: h1 :: h2 :: h3 :: h4 :: rest) = some (n, rest) := by
  simp only [decodeUnit]
  rw [if_pos trivial, if_pos trivial, hhex]
  simp only [Option.some_bind]
  rw [if_neg hns, if_neg (by decide : ¬('\\' : Char) = '\"')]

theorem decodeUnit_surr {h1 h2 h3 h4 g1 g2 g3 g4 : Char} {rest : List Char}
    {n m : Nat}
    (hx1 : hex4 h1 h2 h3 h4 = some n) (hn : 0xd800 ≤ n ∧ n < 0xdc00)
    (hx2 : hex4 g1 g2 g3 g4 = some m) (hm : 0xdc00 ≤ m ∧ m < 0xe000) :
    decodeUnit ('\\' :: 'u' :: h1 :: h2 :: h3 :: h4 ::
        '\\' :: 'u' :: g1 :: g2 :: g3 :: g4 :: rest) =
      some (0x10000 + (n - 0xd800) * 0x400 + (m - 0xdc00), rest) := by
  simp only [decodeUnit]
  rw [if_pos trivial, if_pos trivial, hx1]
  simp only [Option.some_bind]
  rw [if_pos hn, if_pos (show True ∧ True from ⟨trivial, trivial⟩), hx2]
  simp only [Option.some_bind]
  rw [if_pos hm, if_neg (by decide : ¬('\\' : Char) = '\"')]

theorem decodeUnit_escChar (c : Char) (t : List Char) :
    decodeUnit (escChar c ++ t) = some (c.toNat, t) := by
  by_cases hc1 : c = '\\'
  · subst hc1; rfl
  by_cases hc2 : c = '"'
  · subst hc2; rfl
  have hq : c.toNat ≠ 34 := fun hh => hc2 (char_toNat_inj hh)
  have hbs : c.toNat ≠ 92 := fun hh => hc1 (char_toNat_inj hh)
  by_cases hc3 : c.toNat = 8
  · rw [escChar, if_neg hc1, if_neg hc2, if_pos hc3, hc3]; rfl
  by_cases hc4 : c.toNat = 9
  · rw [escChar, if_neg hc1, if_neg hc2, if_neg hc3, if_pos hc4, hc4]; rfl
  by_cases hc5 : c.toNat = 10
  · rw [escChar, if_neg hc1, if_neg hc2, if_neg hc3, if_neg hc4, if_pos hc5, hc5]; rfl
  by_cases hc6 : c.toNat = 12
  · rw [escChar, if_neg hc1, if_neg hc2, if_neg hc3, if_neg hc4, if_neg hc5,
      if_pos hc6, hc6]
    rfl
  by_cases hc7 : c.toNat = 13
  · rw [escChar, if_neg hc1, if_neg hc2, if_neg hc3, if_neg hc4, if_neg hc5,
      if_neg hc6, if_pos hc7, hc7]
    rfl
  rw [escChar, if_neg hc1, if_neg hc2, if_neg hc3, if_neg hc4, if_neg hc5,
    if_neg hc6, if_neg hc7]
  by_cases hc8 : c.toNat < 0x20 ∨ 0x7e < c.toNat
  · rw [if_pos hc8]
    by_cases hc9 : c.toNat < 0x10000
    · have hns : ¬(0xd800 ≤ c.toNat ∧ c.toNat < 0xdc00) := by
        rcases char_valid_nat c with hv | hv <;> omega
      rw [if_pos hc9, uEscape, hex4enc]
      simp only [List.cons_append, List.nil_append]
      exact decodeUnit_u (hex4_hex4enc hc9) hns
    · have hlt : c.toNat < 0x110000 := by
        rcases char_valid_nat c with hv | hv <;> omega
      have hhi : 0xd800 ≤ 0xd800 + (c.toNat - 0x10000) / 0x400 ∧
          0xd800 + (c.toNat - 0x10000) / 0x400 < 0xdc00 := by omega
      have hlo : 0xdc00 ≤ 0xdc00 + (c.toNat - 0x10000) % 0x400 ∧
          0xdc00 + (c.toNat - 0x10000) % 0x400 < 0xe000 := by omega
      rw [if_neg hc9, uEscape, uEscape, hex4enc, hex4enc]
      simp only [List.cons_append, List.append_assoc, List.nil_append]
      rw [decodeUnit_surr
        (hex4_hex4enc (by omega : 0xd800 + (c.toNat - 0x10000) / 0x400 < 65536))
        hhi
        (hex4_hex4enc (by omega : 0xdc00 + (c.toNat - 0x10000) % 0x400 < 65536))
        hlo]
      exact congrArg some (Prod.ext (by omega) rfl)
  · rw [if_neg hc8]
    simp only [List.cons_append, List.nil_append, decodeUnit]
    rw [if_neg hc2, if_neg hc1]

theorem decodeBodyF_escBody (s : List Char) (r : List Char) (fuel : Nat)
    (hf : s.length < fuel) :
    decodeBodyF fuel (escBody s ++ '"' :: r) = some (s.map Char.toNat, r) := by
  induction s generalizing fuel r with
  | nil =>
    obtain ⟨f', rfl⟩ : ∃ f', fuel = f' + 1 := ⟨fuel - 1, by omega⟩
    simp only [escBody, List.map_nil, List.flatten_nil, List.nil_append]
    rfl
  | cons c cs ih =>
    obtain ⟨f', rfl⟩ : ∃ f', fuel = f' + 1 :=
      ⟨fuel - 1, by omega⟩
    have hb : escBody (c :: cs) = escChar c ++ escBody cs := by
      simp [escBody]
    rw [hb, List.append_assoc]
    obtain ⟨d, t, hdt, hdq⟩ := escChar_shape c
    have hu := decodeUnit_escChar c (escBody cs ++ '"' :: r)
    rw [hdt] at hu ⊢
    rw [List.cons_append]
    rw [List.cons_append] at hu
    simp only [decodeBodyF]
    rw [if_neg hdq, hu]
    simp only [Option.some_bind]
    rw [ih _ f' (by simp at hf; omega)]
    simp

/-- Decode one serialized key/value pair. -/
def decodePairF (fuel : Nat) (l : List Char) : Option ((List Nat × List Nat) × List Char) :=
  match l with
  | a :: b :: rest =>
    if a = '[' ∧ b = '"' then
      (decodeBodyF fuel rest).bind (fun kr =>
        match kr.2 with
        | c :: d :: r2 =>
          if c = ',' ∧ d = '"' then
            (decodeBodyF fuel r2).bind (fun vr =>
              match vr.2 with
              | e :: r4 => if e = ']' then some ((kr.1, vr.1), r4) else none
              | [] => none)
          else none
        | _ => none)
    else none
  | _ => none

/-- The code points of a key/value pair, the image a decoded pair lands in. -/
def pairPoints (kv : String × String) : List Nat × List Nat :=
  (kv.1.data.map Char.toNat, kv.2.data.map Char.toNat)

theorem serializePair_append (kv : String × String) (R : List Char) :
    serializePair kv ++ R =
      '[' :: '"' :: (escBody kv.1.data ++ '"' ::
        (',' :: '"' :: (escBody kv.2.data ++ '"' :: (']' :: R)))) := by
  simp [serializePair, encodeJsonString, List.cons_append, List.append_assoc]

theorem decodePairF_serializePair (kv : String × String) (r : List Char) (fuel : Nat)
    (hf1 : kv.1.data.length < fuel) (hf2 : kv.2.data.length < fuel) :
    decodePairF fuel (serializePair kv ++ r) = some (pairPoints kv, r) := by
  rw [serializePair_append]
  simp only [decodePairF]
  rw [if_pos (⟨trivial, trivial⟩ : True ∧ True), decodeBodyF_escBody _ _ _ hf1]
  simp only [Option.some_bind]
  rw [decodeBodyF_escBody kv.2.data (']' :: r) fuel hf2]
  simp [pairPoints]

/-- Decode the remaining items after the first pair: either the closing
bracket, or a comma followed by a pair. -/
def decodeItemsLoopF (fuel : Nat) : Nat → List Char → Option (List (List Nat × List Nat) × List Char)
  | 0, _ => none
  | _ + 1, [] => none
  | itemFuel + 1, c :: rest =>
    if c = ']' then some ([], rest)
    else if c = ',' then
      (decodePairF fuel rest).bind (fun pr =>
        (decodeItemsLoopF fuel itemFuel pr.2).bind (fun psr =>
          some (pr.1 :: psr.1, psr.2)))
    else none

/-- Decode a serialized item list. -/
def decodeItemsF (fuel itemFuel : Nat) (l : List Char) : Option (List (List Nat × List Nat) × List Char) :=
  match l with
  | a :: b :: rest =>
    if a = '[' then
      if b = ']' then some ([], rest)
      else
        (decodePairF fuel (b :: rest)).bind (fun pr =>
          (decodeItemsLoopF fuel itemFuel pr.2).bind (fun psr =>
            some (pr.1 :: psr.1, psr.2)))
    else none
  | _ => none

theorem joinComma_map_cons (x : String × String) (xs : List (String × String)) :
    joinComma ((x :: xs).map serializePair) =
      serializePair x ++ (xs.map (fun kv => ',' :: serializePair kv)).flatten := by
  induction xs generalizing x with
  | nil => simp [joinComma]
  | cons y ys ih =>
    simp only [List.map_cons, joinComma] at ih ⊢
    rw [ih y]
    simp [List.append_assoc]

theorem decodeItemsLoopF_spec (l : List (String × String)) (r : List Char)
    (fuel itemFuel : Nat) (hi : l.length < itemFuel)
    (hf : ∀ kv ∈ l, kv.1.data.length < fuel ∧ kv.2.data.length < fuel) :
    decodeItemsLoopF fuel itemFuel
      ((l.map (fun kv => ',' :: serializePair kv)).flatten ++ ']' :: r) =
      some (l.map pairPoints, r) := by
  induction l generalizing r itemFuel with
  | nil =>
    obtain ⟨g, rfl⟩ : ∃ g, itemFuel = g + 1 := ⟨itemFuel - 1, by omega⟩
    simp only [List.map_nil, List.flatten_nil, List.nil_append]
    rfl
  | cons x xs ih =>
    obtain ⟨g, rfl⟩ : ∃ g, itemFuel = g + 1 := ⟨itemFuel - 1, by omega⟩
    simp only [List.map_cons, List.flatten_cons, List.cons_append, List.append_assoc]
    simp only [decodeItemsLoopF]
    rw [if_pos trivial,
      decodePairF_serializePair x _ fuel (hf x (by simp)).1 (hf x (by simp)).2]
    simp only [Option.some_bind]
    rw [ih _ g (by simp at hi; omega) (fun kv hm => hf kv (by simp [hm]))]
    rfl

theorem decodeItemsF_spec (l : List (String × String)) (r : List Char)
    (fuel itemFuel : Nat) (hi : l.length < itemFuel)
    (hf : ∀ kv ∈ l, kv.1.data.length < fuel ∧ kv.2.data.length < fuel) :
    decodeItemsF fuel itemFuel (serializeItems l ++ r) = some (l.map pairPoints, r) := by
  cases l with
  | nil => rfl
  | cons x xs =>
    unfold serializeItems
    rw [joinComma_map_cons]
    have harg :
        ('[' : Char) :: ((serializePair x ++
            (xs.map (fun kv => ',' :: serializePair kv)).flatten ++ [']']) ++ r) =
          '[' :: (serializePair x ++
            ((xs.map (fun kv => ',' :: serializePair kv)).flatten ++ ']' :: r)) := by
      simp [List.append_assoc]
    rw [List.cons_append, harg, serializePair_append]
    simp only [decodeItemsF]
    rw [if_pos trivial, if_neg (by decide : ¬('[' : Char) = ']'),
      ← serializePair_append,
      decodePairF_serializePair x _ fuel (hf x (by simp)).1 (hf x (by simp)).2]
    simp only [Option.some_bind]
    rw [decodeItemsLoopF_spec xs _ fuel itemFuel (by simp at hi; omega)
      (fun kv hm => hf kv (by simp [hm]))]
    rfl

theorem pairPoints_inj : Function.Injective pairPoints := by
  intro a b h
  unfold pairPoints at h
  have hinj : Function.Injective (List.map Char.toNat) :=
    List.map_injective_iff.mpr (fun c d hcd => char_toNat_inj hcd)
  have h1 := congrArg Prod.fst h
  have h2 := congrArg Prod.snd h
  exact Prod.ext (String.ext (hinj h1)) (String.ext (hinj h2))

/-- Fuel sufficient to decode the serialization of `l`. -/
def itemsFuel (l : List (String × String)) : Nat :=
  l.length + (l.map (fun kv => kv.1.data.length + kv.2.data.length)).sum + 1

theorem itemsFuel_bounds (l : List (String × String)) :
    l.length < itemsFuel l ∧
      ∀ kv ∈ l, kv.1.data.length < itemsFuel l ∧ kv.2.data.length < itemsFuel l := by
  constructor
  · unfold itemsFuel; omega
  · intro kv hm
    have hle : kv.1.data.length + kv.2.data.length ≤
        (l.map (fun kv => kv.1.data.length + kv.2.data.length)).sum :=
      List.single_le_sum (by intro x hx; omega) _ (List.mem_map_of_mem _ hm)
    unfold itemsFuel
    omega

theorem serializeItems_inj {l1 l2 : List (String × String)}
    (h : serializeItems l1 = serializeItems l2) : l1 = l2 := by
  have hF1 := itemsFuel_bounds l1
  have hF2 := itemsFuel_bounds l2
  have hb1 : l1.length < itemsFuel l1 + itemsFuel l2 := by omega
  have hb2 : l2.length < itemsFuel l1 + itemsFuel l2 := by omega
  have h1 := decodeItemsF_spec l1 [] (itemsFuel l1 + itemsFuel l2)
    (itemsFuel l1 + itemsFuel l2) hb1
    (fun kv hm => by have := hF1.2 kv hm; omega)
  have h2 := decodeItemsF_spec l2 [] (itemsFuel l1 + itemsFuel l2)
    (itemsFuel l1 + itemsFuel l2) hb2
    (fun kv hm => by have := hF2.2 kv hm; omega)
  rw [List.append_nil] at h1 h2
  rw [h, h2] at h1
  have hmap : l1.map pairPoints = l2.map pairPoints := by
    have := Option.some.inj h1
    exact (Prod.ext_iff.mp this).1.symm
  exact List.map_injective_iff.mpr pairPoints_inj hmap

example : escChar 'a' = ['a'] := by decide
example : escChar '\n' = ['\\', 'n'] := by decide
example : escChar (Char.ofNat 0xe9) = ['\\', 'u', '0', '0', 'e', '9'] := by decide
example : escChar (Char.ofNat 0x1f600) =
    ['\\', 'u', 'd', '8', '3', 'd', '\\', 'u', 'd', 'e', '0', '0'] := by decide
example :
    serializeItems [("a", "1"), ("b", "2")] =
      "[[\"a\",\"1\"],[\"b\",\"2\"]]".data := by decide
example :
    cacheKeyInput [("b", "2"), ("a", "1")] =
      "[[\"a\",\"1\"],[\"b\",\"2\"]]".data := by decide

/-- C2: `cache_key` depends only on the set of key/value pairs of the
request descriptor, not on insertion order: descriptors that are
permutations of each other hash to the same key, for every hash function;
and descriptors with different key/value sets produce *different inputs to
the hash* (the canonical sorted serializations differ), so their cache keys
differ up to a SHA-1 collision of the canonical sorted serialization —
exactly the hedge in the claim. -/
theorem cache_key_canonical (sha1hex : List Char → String)
    (D1 D2 : List (String × String)) :
    (D1.Perm D2 → cache_key sha1hex D1 = cache_key sha1hex D2) ∧
    (¬ D1.Perm D2 → cacheKeyInput D1 ≠ cacheKeyInput D2) := by
  constructor
  · intro hperm
    have hsorted : sorted_params D1 = sorted_params D2 := by
      apply List.eq_of_perm_of_sorted (r := pairLe)
      · exact (List.perm_insertionSort pairLe D1).trans
          (hperm.trans (List.perm_insertionSort pairLe D2).symm)
      · exact List.sorted_insertionSort pairLe D1
      · exact List.sorted_insertionSort pairLe D2
    unfold cache_key cacheKeyInput
    rw [hsorted]
  · intro hne heq
    apply hne
    have hsorted : sorted_params D1 = sorted_params D2 := serializeItems_inj heq
    unfold sorted_params at hsorted
    have h2 := List.perm_insertionSort pairLe D2
    rw [← hsorted] at h2
    exact (List.perm_insertionSort pairLe D1).symm.trans h2

/-- Witness for C2: a concrete reordered descriptor pair with equal keys,
and a concrete pair of distinct descriptors with distinct hash inputs. -/
theorem cache_key_canonical_witness :
    cache_key (fun _ => "deadbeef") [("b", "2"), ("a", "1")] =
      cache_key (fun _ => "deadbeef") [("a", "1"), ("b", "2")] ∧
    cacheKeyInput [("a", "1")] ≠ cacheKeyInput [("a", "2")] :=
  ⟨(cache_key_canonical (fun _ => "deadbeef") [("b", "2"), ("a", "1")]
      [("a", "1"), ("b", "2")]).1 (by decide),
   (cache_key_canonical (fun _ => "deadbeef") [("a", "1")] [("a", "2")]).2
      (by decide)⟩

/-! ## JSON bodies and `cached_request`

`cached_request(params, refresh)` (`nesdev.py:69-95`, `nesdev_pages.py:71-95`)
reads the on-disk cache keyed by `cache_key(params)` unless `refresh` is
set, otherwise performs the HTTP GET, raises on HTTP errors (after logging)
and on an `error` envelope in a decoded 200 body, and writes the body to
the cache only after those checks.  The cache is explicit state (an
association list from key to stored body, most recent write first, as a
file-per-key store), the network a function from parameters to an outcome,
and the returned triple records the result, the new cache state, and the
number of network requests performed (0 or 1). -/

/-- Decoded JSON values (`response.json()`). -/
inductive Json where
  | null
  | bool (b : Bool)
  | num (n : Int)
  | str (s : String)
  | arr (elems : List Json)
  | obj (fields : List (String × Json))

/-- Field lookup on a JSON object: `data["k"]` / `"k" in data` presence.
On non-objects the Python code would crash; no claim exercises that, and
the model returns `none` there. -/
def Json.getField : Json → String → Option Json
  | .obj fs, k => fs.lookup k
  | _, _ => none

/-- `d.get(k)` in Python: `None` both when the key is absent and when it is
bound to JSON `null` (which decodes to Python `None`). -/
def jsonGet (j : Json) (k : String) : Option Json :=
  match j.getField k with
  | some .null => none
  | v => v

/-- Python truthiness of a decoded JSON value. -/
def Json.pyFalsy : Json → Bool
  | .null => true
  | .bool b => !b
  | .num n => n == 0
  | .str s => s.isEmpty
  | .arr l => l.isEmpty
  | .obj fs => fs.isEmpty

/-- `str(value)` for the scalar JSON values the tool renders.  Containers
never flow into `str()` on the paths the claims cover; their Python `repr`
formatting is not modelled. -/
def pyStr : Json → String
  | .null => "None"
  | .bool b => if b then "True" else "False"
  | .num n => toString n
  | .str s => s
  | .arr _ => "<list>"
  | .obj _ => "<dict>"

/-- Outcome of the underlying `requests.get` call. -/
inductive NetResult where
  | httpError (status : Nat)
  | transportError
  | success (body : Json)

/-- Errors `cached_request` propagates: re-raised `requests.HTTPError`,
other `requests.RequestException`s (timeouts etc.), and `WikiError` for an
`error` envelope inside a 200 body. -/
inductive ReqError where
  | http (status : Nat)
  | transport
  | wiki (info : String)

/-- `data["error"].get("info", "Unknown MediaWiki error")`. -/
def error_info (data : Json) : String :=
  match data.getField "error" with
  | some e =>
    match e.getField "info" with
    | some v => pyStr v
    | none => "Unknown MediaWiki error"
  | none => "Unknown MediaWiki error"

/-- `cached_request(params, refresh)` with explicit cache state and
network behavior; `sha1hex` abstracts the SHA-1 hex digest as in
`cache_key`.  Returns (result, new cache, number of network requests). -/
def cached_request (sha1hex : List Char → String) (net : List (String × String) → NetResult)
    (cache : List (String × Json)) (params : List (String × String)) (refresh : Bool) :
    Except ReqError Json × List (String × Json) × Nat :=
  let key := cache_key sha1hex params
  match (if refresh then none else cache.lookup key) with
  | some cached => (.ok cached, cache, 0)
  | none =>
    match net params with
    | .httpError status => (.error (.http status), cache, 1)
    | .transportError => (.error .transport, cache, 1)
    | .success data =>
      if (data.getField "error").isSome then
        (.error (.wiki (error_info data)), cache, 1)
      else
        (.ok data, (key, data) :: cache, 1)

/-- C3: cache behavior of `cached_request`.
(a) With `refresh = false` and an entry stored under the descriptor's key,
the stored body is returned, the cache is unchanged, and no network request
is performed.
(b) With `refresh = true` the cache entry is never read — the returned
result is independent of the cache contents — a live fetch is always
performed, and a successful fetch overwrites the entry with the refreshed
body before returning it.
(c) Two successive calls with `refresh = false` return equal bodies and
perform at most one network request in total. -/
theorem cached_request_cache_behavior (sha1hex : List Char → String)
    (net : List (String × String) → NetResult) (cache : List (String × Json))
    (params : List (String × String)) :
    (∀ v, cache.lookup (cache_key sha1hex params) = some v →
      cached_request sha1hex net cache params false = (.ok v, cache, 0)) ∧
    ((∀ cache', (cached_request sha1hex net cache params true).1 =
        (cached_request sha1hex net cache' params true).1) ∧
      (cached_request sha1hex net cache params true).2.2 = 1 ∧
      (∀ d, net params = .success d → (d.getField "error").isSome = false →
        cached_request sha1hex net cache params true =
          (.ok d, (cache_key sha1hex params, d) :: cache, 1))) ∧
    (∀ v1 c1 n1, cached_request sha1hex net cache params false = (.ok v1, c1, n1) →
      ∃ n2, cached_request sha1hex net c1 params false = (.ok v1, c1, n2) ∧
        n1 + n2 ≤ 1) := by
  refine ⟨?_, ⟨?_, ?_, ?_⟩, ?_⟩
  · intro v hv
    simp only [cached_request]
    rw [hv]
    rfl
  · intro cache'
    unfold cached_request
    cases net params with
    | httpError s => rfl
    | transportError => rfl
    | success d =>
      by_cases he : (d.getField "error").isSome
      · simp [he]
      · simp [he]
  · unfold cached_request
    cases net params with
    | httpError s => rfl
    | transportError => rfl
    | success d =>
      by_cases he : (d.getField "error").isSome
      · simp [he]
      · simp [he]
  · intro d hnet he
    simp only [cached_request]
    rw [hnet]
    dsimp only
    rw [he]
    rfl
  · intro v1 c1 n1 h1
    simp only [cached_request] at h1 ⊢
    rw [if_neg Bool.false_ne_true] at h1 ⊢
    cases hl : cache.lookup (cache_key sha1hex params) with
    | some v =>
      rw [hl] at h1
      simp only [Prod.mk.injEq, Except.ok.injEq] at h1
      obtain ⟨hv, hc, hn⟩ := h1
      subst hv; subst hc; subst hn
      exact ⟨0, by rw [hl], by omega⟩
    | none =>
      rw [hl] at h1
      cases hnet : net params with
      | httpError s => rw [hnet] at h1; simp at h1
      | transportError => rw [hnet] at h1; simp at h1
      | success d =>
        rw [hnet] at h1
        dsimp only at h1
        by_cases he : (d.getField "error").isSome
        · rw [if_pos he] at h1; simp at h1
        · rw [if_neg he] at h1
          simp only [Prod.mk.injEq, Except.ok.injEq] at h1
          obtain ⟨hv, hc, hn⟩ := h1
          subst hv; subst hc; subst hn
          refine ⟨0, ?_, by omega⟩
          have hself : List.lookup (cache_key sha1hex params)
              ((cache_key sha1hex params, d) :: cache) = some d := by
            simp [List.lookup]
          rw [hself]

/-- Witness for C3: a concrete cache hit returns the stored body with no
network call, and a concrete `refresh = true` call fetches and overwrites. -/
theorem cached_request_cache_behavior_witness :
    cached_request (fun _ => "k") (fun _ => .success (.obj []))
        [("k.json", .str "hit")] [("a", "1")] false =
      (.ok (.str "hit"), [("k.json", .str "hit")], 0) ∧
    cached_request (fun _ => "k") (fun _ => .success (.obj []))
        [("k.json", .str "hit")] [("a", "1")] true =
      (.ok (.obj []), [("k.json", .obj []), ("k.json", .str "hit")], 1) :=
  ⟨(cached_request_cache_behavior (fun _ => "k") (fun _ => .success (.obj []))
      [("k.json", .str "hit")] [("a", "1")]).1 (.str "hit") rfl,
   (cached_request_cache_behavior (fun _ => "k") (fun _ => .success (.obj []))
      [("k.json", .str "hit")] [("a", "1")]).2.1.2.2 (.obj []) rfl rfl⟩

/-- C4: when the live fetch fails — HTTP error, transport failure, or a
decoded 200 body carrying an `error` envelope — `cached_request` writes
nothing to the cache and propagates the error (HTTP/transport errors
unchanged, the envelope as a `WikiError` carrying the envelope's `info`
message); a cache entry is created or updated only after a successful,
envelope-free fetch.  The hypothesis says a live fetch actually happens
(`refresh` set, or no entry under the key). -/
theorem cached_request_failure (sha1hex : List Char → String)
    (net : List (String × String) → NetResult) (cache : List (String × Json))
    (params : List (String × String)) (refresh : Bool)
    (hmiss : refresh = true ∨ cache.lookup (cache_key sha1hex params) = none) :
    (∀ s, net params = .httpError s →
      cached_request sha1hex net cache params refresh =
        (.error (.http s), cache, 1)) ∧
    (net params = .transportError →
      cached_request sha1hex net cache params refresh =
        (.error .transport, cache, 1)) ∧
    (∀ d, net params = .success d → (d.getField "error").isSome = true →
      cached_request sha1hex net cache params refresh =
        (.error (.wiki (error_info d)), cache, 1)) ∧
    (∀ c', (cached_request sha1hex net cache params refresh).2.1 = c' →
      c' ≠ cache →
      ∃ d, net params = .success d ∧ (d.getField "error").isSome = false ∧
        (cached_request sha1hex net cache params refresh).1 = .ok d ∧
        c' = (cache_key sha1hex params, d) :: cache) := by
  have hsc : (if refresh then none else cache.lookup (cache_key sha1hex params)) =
      (none : Option Json) := by
    rcases hmiss with h | h
    · rw [h]
      rfl
    · cases refresh
      · simpa using h
      · rfl
  refine ⟨?_, ?_, ?_, ?_⟩
  · intro s hnet
    simp only [cached_request]
    rw [hsc, hnet]
  · intro hnet
    simp only [cached_request]
    rw [hsc, hnet]
  · intro d hnet he
    simp only [cached_request]
    rw [hsc, hnet]
    dsimp only
    rw [if_pos he]
  · intro c' hc' hne
    simp only [cached_request] at hc' ⊢
    rw [hsc] at hc' ⊢
    cases hnet : net params with
    | httpError s =>
      rw [hnet] at hc'
      exact absurd hc'.symm hne
    | transportError =>
      rw [hnet] at hc'
      exact absurd hc'.symm hne
    | success d =>
      rw [hnet] at hc'
      dsimp only at hc'
      by_cases he : (d.getField "error").isSome
      · rw [if_pos he] at hc'
        exact absurd hc'.symm hne
      · rw [if_neg he] at hc'
        refine ⟨d, rfl, by simpa using he, ?_, hc'.symm⟩
        dsimp only
        rw [if_neg he]

/-- Witness for C4: a concrete HTTP failure and a concrete error envelope,
both leaving the (empty) cache untouched. -/
theorem cached_request_failure_witness :
    cached_request (fun _ => "k") (fun _ => .httpError 403) [] [("a", "1")] false =
      (.error (.http 403), [], 1) ∧
    cached_request (fun _ => "k")
        (fun _ => .success (.obj [("error", .obj [("info", .str "boom")])]))
        [] [("a", "1")] false =
      (.error (.wiki "boom"), [], 1) :=
  ⟨(cached_request_failure (fun _ => "k") (fun _ => .httpError 403) [] [("a", "1")]
      false (Or.inr rfl)).1 403 rfl,
   (cached_request_failure (fun _ => "k")
      (fun _ => .success (.obj [("error", .obj [("info", .str "boom")])]))
      [] [("a", "1")] false (Or.inr rfl)).2.2.1
      (.obj [("error", .obj [("info", .str "boom")])]) rfl rfl⟩

/-! ## Document writer, `fetch_wikitext` and `save_wikitext_document`

From `nesdev.py`: `title_to_slug` (136-138), `format_metadata_wikitext`
(148-156), `fetch_wikitext` (159-174), `save_wikitext_document` (177-203).
The document text is built purely; the file write is the final `.ok` step,
so an error result means no file was created. -/

def title_to_slug (title : String) : String := title.replace " " "_"

/-- `"\n".join(lines)`. -/
def joinNl : List String → String
  | [] => ""
  | [x] => x
  | x :: y :: ys => x ++ "\n" ++ joinNl (y :: ys)

/-- `format_metadata_wikitext(metadata)`: one ` | key = value` line per
entry whose value is not `None`, in insertion order, between the
`\x7b\x7bPage metadata` opener and the `\x7d\x7d` closer.  Values arrive
pre-rendered (`f"{value}"` applies `str`); `none` models Python `None`. -/
def format_metadata_wikitext (metadata : List (String × Option String)) : String :=
  joinNl (["\x7b\x7bPage metadata"] ++
    metadata.filterMap (fun kv => kv.2.map (fun v => " | " ++ kv.1 ++ " = " ++ v)) ++
    ["\x7d\x7d"])

/-- `wikitext.rstrip("\n")`: drop the trailing newlines. -/
def rstrip_newlines (s : String) : String :=
  ⟨(s.data.reverse.dropWhile (fun c => c = '\n')).reverse⟩

/-- `document = f"{front_matter}\n\n{content}\n"` with
`content = wikitext.rstrip("\n")` (`nesdev.py:196-198`). -/
def build_document (metadata : List (String × Option String)) (wikitext : String) : String :=
  let front_matter := format_metadata_wikitext metadata
  let content := rstrip_newlines wikitext
  front_matter ++ "\n\n" ++ content ++ "\n"

/-- `fetch_wikitext` (`nesdev.py:159-174`) applied to the decoded body of
the `action=parse` request: a falsy or missing `parse` member raises, a
missing wikitext `*` raises, otherwise the parse object and the wikitext
value are returned.  (`parsed.get("wikitext", {})` substitutes the empty
object only when the key is absent, as in Python.) -/
def fetch_wikitext (data : Json) : Except String (Json × Json) :=
  match data.getField "parse" with
  | none => .error "No parse data returned; ensure the title exists."
  | some parsed =>
    if parsed.pyFalsy then .error "No parse data returned; ensure the title exists."
    else
      let wt := (parsed.getField "wikitext").getD (.obj [])
      match jsonGet wt "*" with
      | none => .error "Page did not include wikitext content."
      | some w => .ok (parsed, w)

/-- `save_wikitext_document(title, refresh)` (`nesdev.py:177-203`), with
the parse-response body and the current UTC date as inputs, returning the
document text and the output path.  File writing is the final step of the
source function, so an `.error` result writes nothing.  The non-string
wikitext arm is unreachable for real API responses (Python would crash on
`rstrip` there) and is not exercised by any claim. -/
def save_wikitext_document (data : Json) (title : String) (dateStr : String)
    (output_dir : String) : Except String (String × String) :=
  match fetch_wikitext data with
  | .error e => .error e
  | .ok (parsed, wikitextJson) =>
    match wikitextJson with
    | .str wikitext =>
      let slugSource : String :=
        match parsed.getField "title" with
        | some (.str t) => t
        | _ => title
      let slug := title_to_slug slugSource
      let metadata : List (String × Option String) :=
        [("title", (jsonGet parsed "title").map pyStr),
         ("author", some "NESDev contributors"),
         ("date", some dateStr),
         ("source", some ("https://www.nesdev.org/wiki/" ++ slug)),
         ("pageid", (jsonGet parsed "pageid").map pyStr),
         ("revid", (jsonGet parsed "revid").map pyStr)]
      .ok (build_document metadata wikitext, output_dir ++ "/" ++ slug ++ ".wikitext")
    | _ => .error "wikitext content was not a string"

/-- The ` | key = value` lines of the metadata block, spec-side. -/
def metadataLines (metadata : List (String × Option String)) : List String :=
  metadata.filterMap (fun kv => kv.2.map (fun v => " | " ++ kv.1 ++ " = " ++ v))

/-- Document assembly following the claim's words, character by character:
opener line, each non-null metadata line followed by a newline, the closer,
exactly one blank line, the markup with trailing newlines trimmed, one
trailing newline. -/
def specDocument (metadata : List (String × Option String)) (markup : String) : List Char :=
  "\x7b\x7bPage metadata\n".data ++
  ((metadataLines metadata).map (fun l => l.data ++ ['\n'])).flatten ++
  "\x7d\x7d\n\n".data ++
  (rstrip_newlines markup).data ++ ['\n']

theorem joinNl_data (ls : List String) (a b : String) :
    (joinNl (a :: (ls ++ [b]))).data =
      a.data ++ '\n' :: ((ls.map (fun l => l.data ++ ['\n'])).flatten ++ b.data) := by
  induction ls generalizing a with
  | nil => simp [joinNl, String.data_append]
  | cons x xs ih =>
    show (joinNl (a :: x :: (xs ++ [b]))).data = _
    have : joinNl (a :: x :: (xs ++ [b])) = a ++ "\n" ++ joinNl (x :: (xs ++ [b])) := by
      cases xs <;> rfl
    rw [this]
    simp only [String.data_append, ih x, List.map_cons, List.flatten_cons]
    simp [List.append_assoc]

theorem head_dropWhile_not (p : Char → Bool) :
    ∀ (l : List Char) (c : Char), (l.dropWhile p).head? = some c → p c = false := by
  intro l
  induction l with
  | nil => intro c h; simp [List.dropWhile] at h
  | cons a l ih =>
    intro c h
    by_cases hp : p a
    · rw [List.dropWhile_cons_of_pos hp] at h
      exact ih c h
    · rw [List.dropWhile_cons_of_neg hp] at h
      simp at h
      rw [← h]
      exact Bool.of_not_eq_true hp

/-- C5: the saved document is exactly the metadata block — one
` | key = value` line per entry whose value is non-null, in insertion
order, wrapped in the `\x7b\x7bPage metadata` / `\x7d\x7d` delimiters —
then exactly one blank line, then the markup with all trailing newlines
trimmed, then exactly one trailing newline; trimming really removes
exactly the trailing newlines and leaves none behind; and for entries
`title = Foo Bar` and `author = X` the block contains the lines
` | title = Foo Bar` and ` | author = X`. -/
theorem build_document_spec (metadata : List (String × Option String)) (markup : String) :
    (build_document metadata markup).data = specDocument metadata markup ∧
    (∃ k, markup.data = (rstrip_newlines markup).data ++ List.replicate k '\n') ∧
    (∀ c, (rstrip_newlines markup).data.getLast? = some c → c ≠ '\n') ∧
    (("title", some "Foo Bar") ∈ metadata →
      " | title = Foo Bar" ∈ metadataLines metadata) ∧
    (("author", some "X") ∈ metadata →
      " | author = X" ∈ metadataLines metadata) := by
  refine ⟨?_, ?_, ?_, ?_, ?_⟩
  · show (build_document metadata markup).data = _
    have hfm : format_metadata_wikitext metadata =
        joinNl ("\x7b\x7bPage metadata" :: (metadataLines metadata ++ ["\x7d\x7d"])) := rfl
    simp only [build_document, String.data_append, hfm,
      joinNl_data (metadataLines metadata) _ _, specDocument]
    simp [List.append_assoc, List.cons_append]
  · refine ⟨(markup.data.reverse.takeWhile (fun c => c = '\n')).length, ?_⟩
    have hsplit := List.takeWhile_append_dropWhile
      (p := fun c => c = '\n') (l := markup.data.reverse)
    have hrepl : markup.data.reverse.takeWhile (fun c => c = '\n') =
        List.replicate (markup.data.reverse.takeWhile (fun c => c = '\n')).length '\n' := by
      apply List.eq_replicate_of_mem
      intro b hb
      have := List.mem_takeWhile_imp hb
      simpa using this
    calc markup.data = markup.data.reverse.reverse := by rw [List.reverse_reverse]
      _ = (markup.data.reverse.takeWhile (fun c => c = '\n') ++
            markup.data.reverse.dropWhile (fun c => c = '\n')).reverse := by rw [hsplit]
      _ = (rstrip_newlines markup).data ++
            List.replicate (markup.data.reverse.takeWhile (fun c => c = '\n')).length '\n' := by
          rw [List.reverse_append]
          show _ = (rstrip_newlines markup).data ++ _
          rw [rstrip_newlines]
          rw [hrepl, List.reverse_replicate]
          simp
  · intro c hc
    have hh : (markup.data.reverse.dropWhile (fun x => x = '\n')).head? = some c := by
      have : (rstrip_newlines markup).data =
          (markup.data.reverse.dropWhile (fun x => x = '\n')).reverse := rfl
      rw [this, List.getLast?_reverse] at hc
      exact hc
    have := head_dropWhile_not (fun x => x = '\n') _ c hh
    simpa using this
  · intro hm
    exact List.mem_filterMap.mpr ⟨("title", some "Foo Bar"), hm, rfl⟩
  · intro hm
    exact List.mem_filterMap.mpr ⟨("author", some "X"), hm, rfl⟩

/-- Witness for C5 at the claim's example: title `Foo Bar`, author `X`,
date `2024-01-01`, a null entry that is skipped, and a markup body with
two trailing newlines. -/
theorem build_document_spec_witness :
    " | title = Foo Bar" ∈
      metadataLines [("title", some "Foo Bar"), ("author", some "X"),
        ("date", some "2024-01-01"), ("revid", none)] ∧
    " | author = X" ∈
      metadataLines [("title", some "Foo Bar"), ("author", some "X"),
        ("date", some "2024-01-01"), ("revid", none)] ∧
    (build_document [("title", some "Foo Bar"), ("author", some "X"),
        ("date", some "2024-01-01"), ("revid", none)] "Body\n\n").data =
      specDocument [("title", some "Foo Bar"), ("author", some "X"),
        ("date", some "2024-01-01"), ("revid", none)] "Body\n\n" :=
  ⟨(build_document_spec [("title", some "Foo Bar"), ("author", some "X"),
      ("date", some "2024-01-01"), ("revid", none)] "Body\n\n").2.2.2.1 (by decide),
   (build_document_spec [("title", some "Foo Bar"), ("author", some "X"),
      ("date", some "2024-01-01"), ("revid", none)] "Body\n\n").2.2.2.2 (by decide),
   (build_document_spec [("title", some "Foo Bar"), ("author", some "X"),
      ("date", some "2024-01-01"), ("revid", none)] "Body\n\n").1⟩

/-- C10: if the response body has no `parse` object (absent or falsy), or
its parse object has no wikitext `*` field (the `wikitext` member absent,
or an object whose `*` is absent or null), then `fetch_wikitext` raises a
`WikiError` with the corresponding message, and `save_wikitext_document`
propagates that error before building or writing any document: no file is
created at the output path. -/
theorem fetch_wikitext_errors (data : Json) (title dateStr output_dir : String) :
    ((data.getField "parse" = none ∨
        (∃ p, data.getField "parse" = some p ∧ p.pyFalsy = true)) →
      fetch_wikitext data =
        .error "No parse data returned; ensure the title exists." ∧
      save_wikitext_document data title dateStr output_dir =
        .error "No parse data returned; ensure the title exists.") ∧
    (∀ pf, data.getField "parse" = some (.obj pf) →
      (Json.obj pf).pyFalsy = false →
      ((Json.obj pf).getField "wikitext" = none ∨
        (∃ wf, (Json.obj pf).getField "wikitext" = some (.obj wf) ∧
          jsonGet (.obj wf) "*" = none)) →
      fetch_wikitext data =
        .error "Page did not include wikitext content." ∧
      save_wikitext_document data title dateStr output_dir =
        .error "Page did not include wikitext content.") := by
  constructor
  · intro hp
    have hfetch : fetch_wikitext data =
        .error "No parse data returned; ensure the title exists." := by
      rcases hp with hnone | ⟨p, hsome, hfalsy⟩
      · simp only [fetch_wikitext]
        rw [hnone]
      · simp only [fetch_wikitext]
        rw [hsome]
        dsimp only
        rw [hfalsy]
        rfl
    refine ⟨hfetch, ?_⟩
    simp only [save_wikitext_document]
    rw [hfetch]
  · intro pf hsome htruthy hwt
    have hfetch : fetch_wikitext data =
        .error "Page did not include wikitext content." := by
      simp only [fetch_wikitext]
      rw [hsome]
      dsimp only
      rw [htruthy, if_neg Bool.false_ne_true]
      rcases hwt with hnone | ⟨wf, hwf, hstar⟩
      · rw [hnone]
        rfl
      · rw [hwf]
        dsimp only [Option.getD]
        rw [hstar]
    refine ⟨hfetch, ?_⟩
    simp only [save_wikitext_document]
    rw [hfetch]

/-- Witness for C10: a body with no `parse` member, and a body whose
truthy parse object has no wikitext `*` field. -/
theorem fetch_wikitext_errors_witness :
    fetch_wikitext (.obj [("batchcomplete", .str "")]) =
      .error "No parse data returned; ensure the title exists." ∧
    save_wikitext_document (.obj [("parse", .obj [("pageid", .num 1)])])
        "T" "2024-01-01" "assets/nesdev" =
      .error "Page did not include wikitext content." :=
  ⟨(fetch_wikitext_errors (.obj [("batchcomplete", .str "")])
      "T" "2024-01-01" "assets/nesdev").1 (Or.inl rfl) |>.1,
   (fetch_wikitext_errors (.obj [("parse", .obj [("pageid", .num 1)])])
      "T" "2024-01-01" "assets/nesdev").2 [("pageid", .num 1)] rfl rfl
      (Or.inl rfl) |>.2⟩

/-! ## `command_grab` (`nesdev.py:211-229`)

The grab command searches, prints the results, and then: returns when the
result list is empty; prompts when `--pick` was not given; raises
`WikiError` when the 1-based pick is out of range; otherwise saves the
picked result.  `main` (`nesdev.py:286-292`) catches `WikiError` (and
request exceptions), prints `Error: ...`, and exits with code 1; success
paths exit 0.  The second component of the result counts
`save_wikitext_document` calls, i.e. filesystem writes of a document. -/

structure SearchResult where
  title : String
deriving DecidableEq

inductive GrabOutcome where
  | noResults
  | promptForPick
  | outOfRange (msg : String)
  | saved (pick : Int) (title : String)
deriving DecidableEq

/-- `command_grab`, given the search results and the `--pick` argument:
the outcome and the number of documents saved to disk. -/
def command_grab (results : List SearchResult) (pick : Option Int) :
    GrabOutcome × Nat :=
  if results.isEmpty then (.noResults, 0)
  else
    match pick with
    | none => (.promptForPick, 0)
    | some p =>
      let index := p - 1
      if h : index < 0 ∨ (results.length : Int) ≤ index then
        (.outOfRange ("Pick value " ++ toString p ++ " is out of range for " ++
          toString results.length ++ " results."), 0)
      else
        (.saved p (results.get ⟨index.toNat, by omega⟩).title, 1)

/-- Exit code of `uv run nesdev.py grab ...`: `main` maps a raised
`WikiError` to exit code 1 and the remaining grab outcomes to 0. -/
def grab_exit_code (results : List SearchResult) (pick : Option Int) : Int :=
  match (command_grab results pick).1 with
  | .outOfRange _ => 1
  | _ => 0

/-- Recognizer for the reported-error outcome. -/
def GrabOutcome.isOutOfRange : GrabOutcome → Bool
  | .outOfRange _ => true
  | _ => false

/-- Counterexample to C8 as stated: with an *empty* search result list and
the out-of-range pick `1` (greater than the 0 returned results), grab does
not report a UsageError — it returns the no-results outcome with exit
code 0 (and indeed writes nothing). -/
theorem command_grab_empty_out_of_range_no_error :
    (command_grab [] (some 1)).1 = .noResults ∧
    (command_grab [] (some 1)).1.isOutOfRange = false ∧
    (command_grab [] (some 1)).2 = 0 ∧
    grab_exit_code [] (some 1) = 0 :=
  ⟨rfl, rfl, rfl, rfl⟩

/-- C8 (amended): for every *non-empty* search result list and every pick
value out of range — 0, negative, or greater than the number of results —
grab raises the out-of-range `WikiError` (reported by `main` as a handled
error with exit code 1, not a crash) and performs no filesystem write.
With an empty result list grab instead returns before validating the pick
(see C9) — and still writes nothing. -/
theorem command_grab_out_of_range (results : List SearchResult) (p : Int)
    (hne : results ≠ []) (hout : p ≤ 0 ∨ (results.length : Int) < p) :
    command_grab results (some p) =
      (.outOfRange ("Pick value " ++ toString p ++ " is out of range for " ++
        toString results.length ++ " results."), 0) ∧
    grab_exit_code results (some p) = 1 := by
  have hcore : command_grab results (some p) =
      (.outOfRange ("Pick value " ++ toString p ++ " is out of range for " ++
        toString results.length ++ " results."), 0) := by
    unfold command_grab
    rw [if_neg (by simpa using hne)]
    dsimp only
    rw [dif_pos (by omega)]
  exact ⟨hcore, by unfold grab_exit_code; rw [hcore]⟩

/-- Witness for C8 (amended): one result, pick 5. -/
theorem command_grab_out_of_range_witness :
    command_grab [⟨"NES reference guide"⟩] (some 5) =
      (.outOfRange "Pick value 5 is out of range for 1 results.", 0) ∧
    grab_exit_code [⟨"NES reference guide"⟩] (some 5) = 1 :=
  command_grab_out_of_range [⟨"NES reference guide"⟩] 5 (by decide)
    (Or.inr (by decide))

/-- C9: with zero search results, grab returns successfully (exit code 0)
for every pick value — even out-of-range ones — without validating the
pick and without writing any file. -/
theorem command_grab_empty (pick : Option Int) :
    command_grab [] pick = (.noResults, 0) ∧ grab_exit_code [] pick = 0 :=
  ⟨rfl, rfl⟩

/-! ## `clamp_batch_size` (`nesdev_pages.py:378-380`)

`main` (`nesdev_pages.py:396-397`) replaces `args.batch_size` with
`clamp_batch_size(args.batch_size)` before any command runs, so this is
the batch size the pagination walker actually receives. -/

def MAX_BATCH_SIZE : Int := 500

def clamp_batch_size (batch : Int) : Int :=
  min (max 1 batch) MAX_BATCH_SIZE

/-- C6: the batch size used by the walker is clamped before use — values
above the protocol maximum 500 become 500, values ≤ 0 become 1, and
values already in `[1, 500]` pass through unchanged. -/
theorem clamp_batch_size_spec (b : Int) :
    (500 < b → clamp_batch_size b = 500) ∧
    (b ≤ 0 → clamp_batch_size b = 1) ∧
    (1 ≤ b → b ≤ 500 → clamp_batch_size b = b) := by
  unfold clamp_batch_size MAX_BATCH_SIZE
  refine ⟨fun h => ?_, fun h => ?_, fun h1 h2 => ?_⟩ <;> omega

/-- Witness for C6 at 501, 0 and 250. -/
theorem clamp_batch_size_spec_witness :
    clamp_batch_size 501 = 500 ∧ clamp_batch_size 0 = 1 ∧
    clamp_batch_size 250 = 250 :=
  ⟨(clamp_batch_size_spec 501).1 (by decide),
   (clamp_batch_size_spec 0).2.1 (by decide),
   (clamp_batch_size_spec 250).2.2 (by decide) (by decide)⟩

/-! ## Pagination walker `iter_pages` (`nesdev_pages.py:98-137`)

The walker loops `while fetched < limit`, requesting
`gaplimit = min(batch_size, limit - fetched)` pages per batch (plus the
prefix and the continuation token fields when truthy), sorts each batch's
page mapping values by `page.get("index", page["pageid"])`, yields records
until the batch is exhausted or the limit reached, and stops when the
response carries no (truthy) continuation token.  The API (standing for
`cached_request`, i.e. cache or network) is a function from the request
parameters to the extracted response data; the returned trace records one
entry per request issued, which counts both cache fetches and network
calls.  A fuel parameter bounds the a priori unbounded `while` loop (the
Python loop can spin forever on an adversarial API that keeps returning
empty batches with fresh tokens). -/

structure PageObj where
  pageid : Int
  title : String
  touched : Option String
  index : Option Int
deriving DecidableEq

structure PageRec where
  pageid : Int
  title : String
  touched : String
deriving DecidableEq

/-- Sort key `page.get("index", page["pageid"])`. -/
def page_sort_key (p : PageObj) : Int := p.index.getD p.pageid

def pageLe (p q : PageObj) : Prop := page_sort_key p ≤ page_sort_key q

instance : DecidableRel pageLe := fun p q =>
  inferInstanceAs (Decidable (page_sort_key p ≤ page_sort_key q))

instance : IsTotal PageObj pageLe :=
  ⟨fun a b => le_total (page_sort_key a) (page_sort_key b)⟩

instance : IsTrans PageObj pageLe := ⟨fun _ _ _ hab hbc => le_trans hab hbc⟩

/-- Response data the walker extracts: `data["query"]["pages"]` (absent
`query`/`pages` modelled as `none`; the mapping's values in insertion
order) and `data.get("continue")`. -/
structure WalkData where
  pages : Option (List PageObj)
  cont : Option (List (String × String))

/-- `d[k] = v` on a Python dict as an insertion-ordered association list:
replace in place when the key exists, else append. -/
def dict_set (d : List (String × String)) (k v : String) : List (String × String) :=
  if (d.lookup k).isSome then
    d.map (fun kv => if kv.1 = k then (k, v) else kv)
  else d ++ [(k, v)]

/-- `params.update(continue_token)`. -/
def dict_update (d u : List (String × String)) : List (String × String) :=
  u.foldl (fun acc kv => dict_set acc kv.1 kv.2) d

/-- The dict yielded per page: pageid, title, and `touched` with the
`"unknown"` default. -/
def page_to_record (p : PageObj) : PageRec :=
  ⟨p.pageid, p.title, p.touched.getD "unknown"⟩

/-- The `for page in sorted_pages` loop: yield pages while incrementing
`fetched`, breaking as soon as `fetched >= limit`; returns the yielded
pages and the new `fetched`. -/
def emit_pages : List PageObj → Int → Int → List PageObj × Int
  | [], fetched, _ => ([], fetched)
  | p :: rest, fetched, limit =>
    let fetched' := fetched + 1
    if limit ≤ fetched' then ([p], fetched')
    else
      let (ps, f) := emit_pages rest fetched' limit
      (p :: ps, f)

/-- One trace entry per request issued: the parameters sent, the
`gaplimit` requested, and the pages yielded from that response. -/
structure ReqTrace where
  params : List (String × String)
  gapLimit : Int
  yielded : List PageObj

/-- Python truthiness of `continue_token`: `None` and `{}` are falsy. -/
def token_falsy : Option (List (String × String)) → Bool
  | none => true
  | some t => t.isEmpty

/-- The request parameter dict one loop iteration builds: the base
`generator=allpages` query with the batch's `gaplimit`, plus `gapprefix`
when the prefix is truthy, updated with the continuation token's fields
when that is truthy. -/
def walk_params (pre : Option String) (contTok : Option (List (String × String)))
    (gapLimit : Int) : List (String × String) :=
  let params0 : List (String × String) :=
    [("action", "query"), ("format", "json"), ("prop", "info"),
     ("generator", "allpages"), ("gaplimit", toString gapLimit)]
  let params1 :=
    match pre with
    | some s => if s ≠ "" then params0 ++ [("gapprefix", s)] else params0
    | none => params0
  match contTok with
  | some t => if t ≠ [] then dict_update params1 t else params1
  | none => params1

/-- The `while fetched < limit` loop of `iter_pages`: request
`min(batch_size, limit - fetched)` pages, sort the returned page mapping's
values by the index/pageid key, yield until the batch ends or the limit is
reached, then continue with the response's token or stop when it is
absent/falsy. -/
def iter_pages_go (api : List (String × String) → WalkData) (pre : Option String)
    (limit batch : Int) :
    Nat → Int → Option (List (String × String)) → List ReqTrace
  | 0, _, _ => []
  | fuel + 1, fetched, contTok =>
    if fetched < limit then
      let gapLimit := min batch (limit - fetched)
      let params := walk_params pre contTok gapLimit
      let data := api params
      let ef := emit_pages (List.insertionSort pageLe (data.pages.getD [])) fetched limit
      let t : ReqTrace := ⟨params, gapLimit, ef.1⟩
      if token_falsy data.cont then [t]
      else t :: iter_pages_go api pre limit batch fuel ef.2 data.cont
    else []

/-- `iter_pages(prefix, limit, batch_size, refresh)`: the records the
generator yields, in order, together with the request trace. -/
def iter_pages (api : List (String × String) → WalkData) (pre : Option String)
    (limit batch : Int) (fuel : Nat) : List PageRec × List ReqTrace :=
  let trace := iter_pages_go api pre limit batch fuel 0 none
  ((trace.map (fun t => t.yielded.map page_to_record)).flatten, trace)

theorem emit_pages_snd (l : List PageObj) (fetched limit : Int) :
    (emit_pages l fetched limit).2 =
      fetched + (emit_pages l fetched limit).1.length := by
  induction l generalizing fetched with
  | nil => simp [emit_pages]
  | cons p rest ih =>
    simp only [emit_pages]
    by_cases h : limit ≤ fetched + 1
    · rw [if_pos h]
      simp
    · rw [if_neg h]
      simp only [List.length_cons]
      rw [ih (fetched + 1)]
      push_cast
      ring

theorem emit_pages_full (l : List PageObj) (fetched limit : Int)
    (hlt : fetched < limit) (hlen : (l.length : Int) ≤ limit - fetched) :
    emit_pages l fetched limit = (l, fetched + l.length) := by
  induction l generalizing fetched with
  | nil => simp [emit_pages]
  | cons p rest ih =>
    simp only [emit_pages]
    by_cases h : limit ≤ fetched + 1
    · have hrest : rest = [] := by
        cases rest with
        | nil => rfl
        | cons q qs => simp at hlen; omega
      subst hrest
      rw [if_pos h]
      simp
    · rw [if_neg h]
      rw [ih (fetched + 1) (by omega) (by simp at hlen ⊢; omega)]
      simp only [List.length_cons]
      refine Prod.ext rfl ?_
      push_cast
      ring

theorem emit_pages_length_le (l : List PageObj) (fetched limit : Int)
    (hlt : fetched < limit) :
    ((emit_pages l fetched limit).1.length : Int) ≤ limit - fetched := by
  induction l generalizing fetched with
  | nil => simp [emit_pages]; omega
  | cons p rest ih =>
    simp only [emit_pages]
    by_cases h : limit ≤ fetched + 1
    · rw [if_pos h]
      simp
      omega
    · rw [if_neg h]
      simp only [List.length_cons]
      have := ih (fetched + 1) (by omega)
      push_cast at this ⊢
      omega

/-- C7: with `limit <= 0` the walker yields no records and issues no
request at all — neither a cache fetch nor a network call — for every
API behavior, prefix, batch size, and fuel. -/
theorem iter_pages_nonpositive_limit (api : List (String × String) → WalkData)
    (pre : Option String) (limit batch : Int) (fuel : Nat) (hl : limit ≤ 0) :
    iter_pages api pre limit batch fuel = ([], []) := by
  unfold iter_pages
  cases fuel with
  | zero => rfl
  | succ f =>
    simp only [iter_pages_go]
    rw [if_neg (by omega : ¬(0 : Int) < limit)]
    rfl

/-- Witness for C7 at `limit = 0` and at a negative limit. -/
theorem iter_pages_nonpositive_limit_witness :
    iter_pages (fun _ => ⟨some [], none⟩) (some "Stat") 0 10 5 = ([], []) ∧
    iter_pages (fun _ => ⟨some [], none⟩) none (-3) 500 9 = ([], []) :=
  ⟨iter_pages_nonpositive_limit (fun _ => ⟨some [], none⟩) (some "Stat") 0 10 5
      (by decide),
   iter_pages_nonpositive_limit (fun _ => ⟨some [], none⟩) none (-3) 500 9
      (by decide)⟩

theorem iter_pages_go_bound (api : List (String × String) → WalkData)
    (pre : Option String) (limit batch : Int) :
    ∀ (fuel : Nat) (fetched : Int) (cont : Option (List (String × String))),
      (((iter_pages_go api pre limit batch fuel fetched cont).map
          (fun t => t.yielded.length)).sum ≤ (limit - fetched).toNat) ∧
      (∀ k t, (iter_pages_go api pre limit batch fuel fetched cont)[k]? = some t →
        k + 1 < (iter_pages_go api pre limit batch fuel fetched cont).length →
        token_falsy (api t.params).cont = false) := by
  intro fuel
  induction fuel with
  | zero =>
    intro fetched cont
    constructor
    · simp [iter_pages_go]
    · intro k t hget hk
      simp [iter_pages_go] at hget
  | succ fuel ih =>
    intro fetched cont
    by_cases hlt : fetched < limit
    · simp only [iter_pages_go]
      rw [if_pos hlt]
      by_cases htok : token_falsy
          (api (walk_params pre cont (min batch (limit - fetched)))).cont
      · rw [if_pos htok]
        constructor
        · have h1 := emit_pages_length_le
            (List.insertionSort pageLe
              ((api (walk_params pre cont (min batch (limit - fetched)))).pages.getD []))
            fetched limit hlt
          simp only [List.map_cons, List.map_nil, List.sum_cons, List.sum_nil]
          omega
        · intro k t hget hk
          simp at hk
      · rw [if_neg htok]
        obtain ⟨ihsum, ihtok⟩ := ih
          ((emit_pages (List.insertionSort pageLe
            ((api (walk_params pre cont (min batch (limit - fetched)))).pages.getD []))
            fetched limit).2)
          ((api (walk_params pre cont (min batch (limit - fetched)))).cont)
        constructor
        · have h1 := emit_pages_length_le
            (List.insertionSort pageLe
              ((api (walk_params pre cont (min batch (limit - fetched)))).pages.getD []))
            fetched limit hlt
          have h2 := emit_pages_snd
            (List.insertionSort pageLe
              ((api (walk_params pre cont (min batch (limit - fetched)))).pages.getD []))
            fetched limit
          simp only [List.map_cons, List.sum_cons]
          omega
        · intro k t hget hk
          cases k with
          | zero =>
            simp only [List.getElem?_cons_zero, Option.some.injEq] at hget
            rw [← hget]
            simpa using Bool.not_eq_true _ ▸ htok
          | succ k =>
            simp only [List.getElem?_cons_succ] at hget
            simp only [List.length_cons] at hk
            exact ihtok k t hget (by omega)
    · constructor
      · simp [iter_pages_go, if_neg hlt]
      · intro k t hget hk
        simp [iter_pages_go, if_neg hlt] at hget

theorem iter_pages_go_done (api : List (String × String) → WalkData)
    (pre : Option String) (limit batch : Int) (fuel : Nat) (fetched : Int)
    (cont : Option (List (String × String))) (h : ¬ fetched < limit) :
    iter_pages_go api pre limit batch fuel fetched cont = [] := by
  cases fuel with
  | zero => rfl
  | succ f =>
    simp only [iter_pages_go]
    rw [if_neg h]

/-- Invariant of the walker under the synthetic full-batch API: every
issued request is answered with exactly the requested number of pages and
a truthy continuation token.  Then the walker yields exactly
`limit - fetched` more records, issues `ceil((limit - fetched)/batch)`
more requests, the k-th of them asking for `min(batch, limit - fetched -
k*batch)` pages, and each batch is emitted completely, sorted by the
index/pageid key. -/
theorem iter_pages_go_full (api : List (String × String) → WalkData)
    (pre : Option String) (limit batch : Int) (hb : 0 < batch) :
    ∀ (fuel : Nat) (fetched : Int) (cont : Option (List (String × String))),
      fetched < limit → (limit - fetched).toNat ≤ fuel →
      (∀ t ∈ iter_pages_go api pre limit batch fuel fetched cont,
        (((api t.params).pages.getD []).length : Int) = t.gapLimit ∧
        token_falsy (api t.params).cont = false) →
      (((iter_pages_go api pre limit batch fuel fetched cont).map
          (fun t => t.yielded.length)).sum = (limit - fetched).toNat) ∧
      ((iter_pages_go api pre limit batch fuel fetched cont).length =
        ((limit - fetched).toNat + batch.toNat - 1) / batch.toNat) ∧
      (∀ (k : Nat) (t : ReqTrace),
        (iter_pages_go api pre limit batch fuel fetched cont)[k]? = some t →
        t.gapLimit = min batch (limit - fetched - (k : Int) * batch)) ∧
      (∀ t ∈ iter_pages_go api pre limit batch fuel fetched cont,
        t.yielded = List.insertionSort pageLe ((api t.params).pages.getD []) ∧
        (t.yielded.length : Int) = t.gapLimit ∧
        List.Pairwise pageLe t.yielded) := by
  intro fuel
  induction fuel with
  | zero =>
    intro fetched cont hlt hfuel H
    exact absurd hfuel (by omega)
  | succ fuel ih =>
    intro fetched cont hlt hfuel H
    simp only [iter_pages_go] at H ⊢
    rw [if_pos hlt] at H ⊢
    have hheadmem :
        (⟨walk_params pre cont (min batch (limit - fetched)),
          min batch (limit - fetched),
          (emit_pages (List.insertionSort pageLe
            ((api (walk_params pre cont (min batch (limit - fetched)))).pages.getD []))
            fetched limit).1⟩ : ReqTrace) ∈
          (if token_falsy
              (api (walk_params pre cont (min batch (limit - fetched)))).cont = true then
            [⟨walk_params pre cont (min batch (limit - fetched)),
              min batch (limit - fetched),
              (emit_pages (List.insertionSort pageLe
                ((api (walk_params pre cont (min batch (limit - fetched)))).pages.getD []))
                fetched limit).1⟩]
          else
            ⟨walk_params pre cont (min batch (limit - fetched)),
              min batch (limit - fetched),
              (emit_pages (List.insertionSort pageLe
                ((api (walk_params pre cont (min batch (limit - fetched)))).pages.getD []))
                fetched limit).1⟩ ::
              iter_pages_go api pre limit batch fuel
                (emit_pages (List.insertionSort pageLe
                  ((api (walk_params pre cont (min batch (limit - fetched)))).pages.getD []))
                  fetched limit).2
                (api (walk_params pre cont (min batch (limit - fetched)))).cont) := by
      split
      · simp
      · simp
    obtain ⟨hlenI, htokF⟩ := H _ hheadmem
    simp only at hlenI htokF
    rw [htokF, if_neg Bool.false_ne_true] at H ⊢
    have hLlen : ((List.insertionSort pageLe
        ((api (walk_params pre cont (min batch (limit - fetched)))).pages.getD [])).length : Int) =
        min batch (limit - fetched) := by
      rw [(List.perm_insertionSort pageLe _).length_eq]
      exact hlenI
    have hemit : emit_pages (List.insertionSort pageLe
        ((api (walk_params pre cont (min batch (limit - fetched)))).pages.getD []))
        fetched limit =
        (List.insertionSort pageLe
          ((api (walk_params pre cont (min batch (limit - fetched)))).pages.getD []),
         fetched + (List.insertionSort pageLe
          ((api (walk_params pre cont (min batch (limit - fetched)))).pages.getD [])).length) :=
      emit_pages_full _ fetched limit hlt (by omega)
    rw [hemit] at H ⊢
    by_cases hbs : limit - fetched ≤ batch
    · have hrest : iter_pages_go api pre limit batch fuel
          (fetched + (List.insertionSort pageLe
            ((api (walk_params pre cont (min batch (limit - fetched)))).pages.getD [])).length)
          (api (walk_params pre cont (min batch (limit - fetched)))).cont = [] :=
        iter_pages_go_done _ _ _ _ _ _ _ (by omega)
      rw [hrest]
      refine ⟨?_, ?_, ?_, ?_⟩
      · simp only [List.map_cons, List.map_nil, List.sum_cons, List.sum_nil]
        omega
      · simp only [List.length_cons, List.length_nil]
        exact (Nat.div_eq_of_lt_le (by omega) (by omega)).symm
      · intro k t hget
        cases k with
        | zero =>
          simp only [List.getElem?_cons_zero, Option.some.injEq] at hget
          rw [← hget]
          simp
        | succ k =>
          simp at hget
      · intro t ht
        simp only [List.mem_singleton] at ht
        subst ht
        exact ⟨rfl, by simpa using hLlen, List.sorted_insertionSort pageLe _⟩
    · have hih := ih
        (fetched + (List.insertionSort pageLe
          ((api (walk_params pre cont (min batch (limit - fetched)))).pages.getD [])).length)
        ((api (walk_params pre cont (min batch (limit - fetched)))).cont)
        (by omega) (by omega)
        (fun t ht => H t (List.mem_cons_of_mem _ ht))
      obtain ⟨ihsum, ihlen, ihgap, ihper⟩ := hih
      have hgb : min batch (limit - fetched) = batch := by omega
      refine ⟨?_, ?_, ?_, ?_⟩
      · simp only [List.map_cons, List.sum_cons]
        omega
      · simp only [List.length_cons]
        rw [ihlen]
        have hb' : 0 < batch.toNat := by omega
        have hstep := Nat.add_div_right
          ((limit - (fetched + (List.insertionSort pageLe
            ((api (walk_params pre cont (min batch (limit - fetched)))).pages.getD [])).length)).toNat +
            batch.toNat - 1) hb'
        have hnum : (limit - fetched).toNat + batch.toNat - 1 =
            (limit - (fetched + (List.insertionSort pageLe
              ((api (walk_params pre cont (min batch (limit - fetched)))).pages.getD [])).length)).toNat +
              batch.toNat - 1 + batch.toNat := by omega
        rw [hnum]
        omega
      · intro k t hget
        cases k with
        | zero =>
          simp only [List.getElem?_cons_zero, Option.some.injEq] at hget
          rw [← hget]
          simp
        | succ k =>
          simp only [List.getElem?_cons_succ] at hget
          have hthis := ihgap k t hget
          rw [hthis]
          have hLb : ((List.insertionSort pageLe
              ((api (walk_params pre cont (min batch (limit - fetched)))).pages.getD [])).length : Int) =
              batch := by omega
          have harg : limit - (fetched + ((List.insertionSort pageLe
              ((api (walk_params pre cont (min batch (limit - fetched)))).pages.getD [])).length : Int)) -
              (k : Int) * batch =
              limit - fetched - (((k + 1 : Nat)) : Int) * batch := by
            rw [hLb]
            push_cast
            ring
          rw [harg]
      · intro t ht
        rcases List.mem_cons.mp ht with hh | hh
        · subst hh
          exact ⟨rfl, by simpa using hLlen, List.sorted_insertionSort pageLe _⟩
        · exact ihper t hh

theorem iter_pages_records_length (api : List (String × String) → WalkData)
    (pre : Option String) (limit batch : Int) (fuel : Nat) :
    (iter_pages api pre limit batch fuel).1.length =
      ((iter_pages_go api pre limit batch fuel 0 none).map
        (fun t => t.yielded.length)).sum := by
  unfold iter_pages
  rw [List.length_flatten, List.map_map]
  refine congrArg List.sum ?_
  apply List.map_congr_left
  intro t ht
  simp [Function.comp]

/-- C1: pagination walker correctness.
Part 1 (synthetic full-batch API): if every request the walker issues is
answered with exactly the requested `gaplimit` number of pages together
with a truthy continuation token, then with `limit > 0`, `batch > 0` and
fuel covering the loop iterations, the walker yields exactly `limit` Page
Records, performs exactly `ceil(limit/batch)` batch requests (cache or
network), the k-th requesting `min(batch_size, limit - fetched)` =
`min(batch, limit - k*batch)` pages, and every batch is yielded in full in
stable sorted order — each batch equals the sorted (by the API `index`
field, falling back to pageid) permutation of that response's page
collection, hence is sorted with respect to that key.  The witness
instantiates `limit = 37`, `batch = 10`: 37 records, ceil(37/10) = 4
requests.
Part 2 (unconditional): the records are exactly the concatenation of the
per-request yields; the walker never yields more than `limit` records; and
every request that is not the last one was answered with a truthy
continuation token — equivalently, when some response carries no
continuation token the walker stops at that point (possibly with fewer
records). -/
theorem iter_pages_pagination (api : List (String × String) → WalkData)
    (pre : Option String) (limit batch : Int) (fuel : Nat)
    (hl : 0 < limit) (hb : 0 < batch) (hfuel : limit.toNat ≤ fuel) :
    ((∀ t ∈ (iter_pages api pre limit batch fuel).2,
        (((api t.params).pages.getD []).length : Int) = t.gapLimit ∧
        token_falsy (api t.params).cont = false) →
      ((iter_pages api pre limit batch fuel).1.length = limit.toNat ∧
       (iter_pages api pre limit batch fuel).2.length =
         (limit.toNat + batch.toNat - 1) / batch.toNat ∧
       (∀ (k : Nat) (t : ReqTrace),
         (iter_pages api pre limit batch fuel).2[k]? = some t →
         t.gapLimit = min batch (limit - (k : Int) * batch)) ∧
       (∀ t ∈ (iter_pages api pre limit batch fuel).2,
         t.yielded = List.insertionSort pageLe ((api t.params).pages.getD []) ∧
         (t.yielded.length : Int) = t.gapLimit ∧
         List.Pairwise pageLe t.yielded))) ∧
    ((iter_pages api pre limit batch fuel).1 =
      ((iter_pages api pre limit batch fuel).2.map
        (fun t => t.yielded.map page_to_record)).flatten ∧
     (iter_pages api pre limit batch fuel).1.length ≤ limit.toNat ∧
     (∀ (k : Nat) (t : ReqTrace),
       (iter_pages api pre limit batch fuel).2[k]? = some t →
       k + 1 < (iter_pages api pre limit batch fuel).2.length →
       token_falsy (api t.params).cont = false)) := by
  constructor
  · intro H
    have h := iter_pages_go_full api pre limit batch hb fuel 0 none
      (by omega) (by simpa using hfuel) (by simpa [iter_pages] using H)
    obtain ⟨hsum, hlen, hgap, hper⟩ := h
    simp only [sub_zero] at hsum hlen hgap
    refine ⟨?_, ?_, ?_, ?_⟩
    · rw [iter_pages_records_length, hsum]
    · exact hlen
    · intro k t hget
      exact hgap k t (by simpa [iter_pages] using hget)
    · intro t ht
      exact hper t (by simpa [iter_pages] using ht)
  · refine ⟨rfl, ?_, ?_⟩
    · have h := (iter_pages_go_bound api pre limit batch fuel 0 none).1
      rw [iter_pages_records_length]
      simpa using h
    · intro k t hget hk
      have h := (iter_pages_go_bound api pre limit batch fuel 0 none).2 k t
        (by simpa [iter_pages] using hget) (by simpa [iter_pages] using hk)
      exact h

/-- Pages for the C1 witness API: `n` pages with distinct page ids. -/
def mkPages (n : Nat) : List PageObj :=
  (List.range n).map (fun i => ⟨(i : Int), "Page", some "2024-01-01T00:00:00Z", none⟩)

/-- The C1 witness API: a synthetic behavior answering every request with
exactly the requested number of pages and a continuation token. -/
def witApi : List (String × String) → WalkData := fun ps =>
  match ps.lookup "gaplimit" with
  | some s =>
    if s = "10" then ⟨some (mkPages 10), some [("gapcontinue", "Next")]⟩
    else if s = "7" then ⟨some (mkPages 7), some [("gapcontinue", "Next")]⟩
    else ⟨some [], some [("gapcontinue", "Next")]⟩
  | none => ⟨some [], some [("gapcontinue", "Next")]⟩

/-- Witness for C1: `limit = 37`, `batch_size = 10` over the synthetic
full-batch API yields exactly 37 records in ceil(37/10) = 4 requests. -/
theorem iter_pages_pagination_witness :
    (iter_pages witApi none 37 10 37).1.length = 37 ∧
    (iter_pages witApi none 37 10 37).2.length = 4 :=
  have h := (iter_pages_pagination witApi none 37 10 37 (by decide) (by decide)
    (by decide)).1 (by decide)
  ⟨h.1, h.2.1⟩

end Nesdev
